import Mathlib

/-!
Verification of the StrucTexT v2 end-to-end OCR model
(src/StrucTexT/v2/src/tasks/end2end_ocr/model.py) against its
natural-language specification.

Tensors are embedded as flat lists of rationals (`List ℚ`); the real-valued
smooth step function and softmax probabilities, which use the transcendental
`exp`, are embedded over `ℝ`.  Python `int()` truncation is `pyInt`.
Fallible code (assertions, constructor validation) returns `Except`.
-/

/-- Python `int()` applied to a rational: truncation toward zero. -/
def pyInt (q : ℚ) : ℤ := if 0 ≤ q then ⌊q⌋ else -⌊-q⌋

/-! ## Region batching (Model.forward, lines 612-638 and 757-763)

Per image the code gathers the mask-valid rows with
`bool_idxes = paddle.nonzero(masks)` and `paddle.index_select`, records the
valid count in `rois_num` (0 with an empty tensor when no row is valid),
concatenates everything into one flat tensor, and later re-splits the flat
per-region output by walking `rois_num` with a cursor. -/

/-- `paddle.nonzero` on a 1-D mask tensor: the indices of the nonzero
entries, in increasing order. -/
def nonzero (masks : List ℚ) : List ℕ :=
  (List.range masks.length).filter (fun i => decide (masks.getD i 0 ≠ 0))

/-- `paddle.index_select(x, idxs)`: gather the rows of `x` at `idxs`. -/
def index_select {α : Type} (xs : List α) (idxs : List ℕ) : List α :=
  idxs.filterMap (fun i => xs[i]?)

/-- One loop iteration of Model.forward lines 612-634: the mask-valid rows of
one image (empty when the image has no valid region). -/
def gather_valid {α : Type} (rows : List α) (masks : List ℚ) : List α :=
  index_select rows (nonzero masks)

/-- The counts-per-image vector `rois_num` built by the loop: entry `b` is the
number of mask-valid regions of image `b` (0 allowed, the index is kept). -/
def rois_num {α : Type} (batch : List (List α × List ℚ)) : List ℕ :=
  batch.map (fun p => (gather_valid p.1 p.2).length)

/-- The flat concatenated region tensor `rois = paddle.concat(rois, axis=0)`:
all valid regions in image-major order. -/
def rois_flat {α : Type} (batch : List (List α × List ℚ)) : List α :=
  (batch.map (fun p => gather_valid p.1 p.2)).flatten

/-- The re-splitting loop of Model.forward lines 757-763: walk the counts
vector, slice `[cursor, cursor+count)` from the flat output, advance the
cursor by `count`. -/
def resplit {α : Type} : List α → List ℕ → List (List α)
  | _, [] => []
  | flat, n :: ns => flat.take n :: resplit (flat.drop n) ns

theorem resplit_map_flatten {α β : Type} (gs : List (List α)) (f : α → β) :
    resplit (gs.flatten.map f) (gs.map List.length) = gs.map (List.map f) := by
  induction gs with
  | nil => rfl
  | cons g t ih =>
    simp only [List.flatten_cons, List.map_cons, List.map_append, resplit]
    rw [← List.length_map g f, List.take_left, List.drop_left, ih]

theorem resplit_flatten {α : Type} (gs : List (List α)) :
    resplit gs.flatten (gs.map List.length) = gs := by
  have h := resplit_map_flatten gs id
  simpa using h

theorem gather_valid_of_zero_mask {α : Type} (rows : List α) (masks : List ℚ)
    (hz : ∀ q ∈ masks, q = 0) : gather_valid rows masks = [] := by
  have hnz : nonzero masks = [] := by
    unfold nonzero
    rw [List.filter_eq_nil_iff]
    intro a ha
    have halt : a < masks.length := List.mem_range.mp ha
    have h0 : masks.getD a 0 = 0 := by
      rw [List.getD_eq_getElem masks 0 halt]
      exact hz _ (masks.getElem_mem halt)
    simp only [decide_eq_true_eq, ne_eq, not_not]
    exact h0
  unfold gather_valid
  rw [hnz]
  rfl

/-- Claim C1: for every batch of per-image validity masks, the total number of
rows in the flat concatenated region tensor equals the sum of the per-image
counts vector, and re-splitting the flat pooled output by walking the counts
vector exactly reproduces the per-image groupings of pooled regions in the
original image-major order. -/
theorem region_batching_roundtrip {α β : Type} (batch : List (List α × List ℚ))
    (pool : α → β) :
    (rois_num batch).sum = (rois_flat batch).length ∧
    resplit ((rois_flat batch).map pool) (rois_num batch)
      = batch.map (fun p => (gather_valid p.1 p.2).map pool) := by
  have h1 : rois_num batch
      = (batch.map (fun p => gather_valid p.1 p.2)).map List.length := by
    unfold rois_num
    rw [List.map_map]
    rfl
  have h2 : rois_flat batch
      = (batch.map (fun p => gather_valid p.1 p.2)).flatten := rfl
  constructor
  · rw [h1, h2, ← List.length_flatten]
  · rw [h1, h2, resplit_map_flatten, List.map_map]
    rfl

/-- Claim C2: an image whose validity mask has no nonzero entry contributes a
counts-vector entry of 0 and an empty slice at its own index (the index is not
skipped), the flat concatenation of the remaining regions still has one row
per valid region, and re-splitting yields an empty slice for that image. -/
theorem zero_valid_regions_handled (batch : List (List (List ℚ) × List ℚ))
    (i : ℕ) (hi : i < batch.length)
    (hz : ∀ q ∈ (batch.get ⟨i, hi⟩).2, q = 0) :
    (rois_num batch).getD i 1 = 0 ∧
    (resplit (rois_flat batch) (rois_num batch)).getD i [[1]] = [] ∧
    (rois_num batch).sum = (rois_flat batch).length := by
  have hgz : gather_valid (batch.get ⟨i, hi⟩).1 (batch.get ⟨i, hi⟩).2 = [] :=
    gather_valid_of_zero_mask _ _ hz
  have h1 : rois_num batch
      = (batch.map (fun p => gather_valid p.1 p.2)).map List.length := by
    unfold rois_num
    rw [List.map_map]
    rfl
  have h2 : rois_flat batch
      = (batch.map (fun p => gather_valid p.1 p.2)).flatten := rfl
  refine ⟨?_, ?_, ?_⟩
  · have hlen : i < (rois_num batch).length := by
      unfold rois_num; rw [List.length_map]; exact hi
    rw [List.getD_eq_getElem _ 1 hlen]
    unfold rois_num
    rw [List.getElem_map]
    have hb : batch[i] = batch.get ⟨i, hi⟩ := rfl
    rw [hb, hgz]
    rfl
  · have hsplit : resplit (rois_flat batch) (rois_num batch)
        = batch.map (fun p => gather_valid p.1 p.2) := by
      rw [h1, h2, resplit_flatten]
    have hlen : i < (batch.map (fun p => gather_valid p.1 p.2)).length := by
      rw [List.length_map]; exact hi
    rw [hsplit, List.getD_eq_getElem _ _ hlen, List.getElem_map]
    have hb : batch[i] = batch.get ⟨i, hi⟩ := rfl
    rw [hb]
    exact hgz
  · rw [h1, h2, ← List.length_flatten]

/-- Example batch for the degenerate-image case: image A has three mask-valid
regions, image B has none. -/
def example_batch : List (List (List ℚ) × List ℚ) :=
  [([[1, 2, 3, 4], [5, 6, 7, 8], [9, 10, 11, 12]], [1, 1, 1]),
   ([[13, 14, 15, 16]], [0])]

theorem zero_valid_regions_handled_witness :
    (rois_num example_batch).getD 1 1 = 0 ∧
    (resplit (rois_flat example_batch) (rois_num example_batch)).getD 1 [[1]] = [] ∧
    (rois_num example_batch).sum = (rois_flat example_batch).length :=
  zero_valid_regions_handled example_batch 1 (by decide) (by decide)

/-! ## Loss engine (BalanceLoss, DiceLoss, MaskL1Loss, DBLoss) -/

/-- The value computed by DiceLoss.forward (model.py lines 112-123):
1 - 2*sum(pred*gt*mask) / (sum(pred*mask) + sum(gt*mask) + eps). -/
def dice_loss_val (eps : ℚ) (pred gt mask : List ℚ) : ℚ :=
  let intersection := (List.zipWith (· * ·) (List.zipWith (· * ·) pred gt) mask).sum
  let union := (List.zipWith (· * ·) pred mask).sum
      + (List.zipWith (· * ·) gt mask).sum + eps
  1 - 2 * intersection / union

/-- DiceLoss.forward with its precondition assertions (pred, gt and mask must
share one shape) and the trailing assertion that the loss is at most 1; an
assertion failure is an error value. -/
def dice_loss_forward (eps : ℚ) (pred gt mask : List ℚ) : Except String ℚ :=
  if pred.length ≠ gt.length then Except.error "assertion failed: pred.shape == gt.shape"
  else if pred.length ≠ mask.length then Except.error "assertion failed: pred.shape == mask.shape"
  else if dice_loss_val eps pred gt mask ≤ 1 then Except.ok (dice_loss_val eps pred gt mask)
  else Except.error "assertion failed: loss <= 1"

/-- MaskL1Loss.forward (model.py lines 149-154): sum(|pred-gt|*mask)/(sum(mask)+eps);
the final paddle.mean of a scalar is the scalar itself. -/
def mask_l1_loss (eps : ℚ) (pred gt mask : List ℚ) : ℚ :=
  (List.zipWith (· * ·) (List.zipWith (fun p g => |p - g|) pred gt) mask).sum
    / (mask.sum + eps)

/-- BalanceLoss.forward line 77: positive = gt * mask. -/
def positive_map (gt mask : List ℚ) : List ℚ := List.zipWith (· * ·) gt mask

/-- BalanceLoss.forward line 78: negative = (1 - gt) * mask. -/
def negative_map (gt mask : List ℚ) : List ℚ :=
  List.zipWith (fun g m => (1 - g) * m) gt mask

/-- BalanceLoss.forward line 80: positive_count = int(positive.sum()). -/
def positive_count (gt mask : List ℚ) : ℤ := pyInt (positive_map gt mask).sum

/-- BalanceLoss.forward lines 81-82:
negative_count = int(min(negative.sum(), positive_count * negative_ratio)). -/
def negative_count (neg_ratio : ℚ) (gt mask : List ℚ) : ℤ :=
  pyInt (min (negative_map gt mask).sum ((positive_count gt mask : ℚ) * neg_ratio))

/-- Tensor.sort(descending=True) on a flattened tensor. -/
def sort_descending (l : List ℚ) : List ℚ := List.insertionSort (· ≥ ·) l

/-- BalanceLoss.forward lines 77-102 on the default balance_loss=True path,
parameterised by the configured per-pixel main loss function `lossFn`
(self.loss). -/
def balance_loss_forward (neg_ratio eps : ℚ)
    (lossFn : List ℚ → List ℚ → List ℚ → List ℚ) (pred gt mask : List ℚ) : ℚ :=
  let positive := positive_map gt mask
  let negative := negative_map gt mask
  let pc := positive_count gt mask
  let nc := negative_count neg_ratio gt mask
  let loss := lossFn pred gt mask
  let positive_loss := List.zipWith (· * ·) positive loss
  let negative_loss := List.zipWith (· * ·) negative loss
  if 0 < nc then
    (positive_loss.sum + ((sort_descending negative_loss).take nc.toNat).sum)
      / ((pc : ℚ) + (nc : ℚ) + eps)
  else
    positive_loss.sum / ((pc : ℚ) + eps)

/-- The default main loss of BalanceLoss (main_loss_type DiceLoss): self.loss
returns the scalar dice value, which paddle broadcasts over the
positive/negative maps; broadcasting a scalar over a length-n tensor is
replication. -/
def dice_main_loss (eps : ℚ) : List ℚ → List ℚ → List ℚ → List ℚ :=
  fun pred gt mask => List.replicate pred.length (dice_loss_val eps pred gt mask)

theorem zipWith_mul_nonneg (a b : List ℚ) (ha : ∀ x ∈ a, 0 ≤ x)
    (hb : ∀ x ∈ b, 0 ≤ x) : ∀ y ∈ List.zipWith (· * ·) a b, 0 ≤ y := by
  induction a generalizing b with
  | nil => simp
  | cons x xs ih =>
    cases b with
    | nil => simp
    | cons y ys =>
      intro z hz
      rcases List.mem_cons.mp hz with h | h
      · rw [h]
        exact mul_nonneg (ha x (by simp)) (hb y (by simp))
      · exact ih ys (fun u hu => ha u (by simp [hu])) (fun u hu => hb u (by simp [hu])) z h

/-- Claim C5: for equal-shape inputs with entries in [0,1] the dice loss
computes 1 - 2*sum(pred*gt*mask)/(sum(pred*mask)+sum(gt*mask)+eps), the value
is at most 1 so the assertion cannot fire and the forward call succeeds, and
shape-mismatched inputs are rejected with an error before any computation. -/
theorem dice_loss_bounded (eps : ℚ) (pred gt mask p2 g2 m2 : List ℚ)
    (heps : 0 < eps)
    (hp : ∀ x ∈ pred, 0 ≤ x ∧ x ≤ 1) (hg : ∀ x ∈ gt, 0 ≤ x ∧ x ≤ 1)
    (hm : ∀ x ∈ mask, 0 ≤ x ∧ x ≤ 1)
    (hl1 : pred.length = gt.length) (hl2 : pred.length = mask.length)
    (hbad : p2.length ≠ g2.length) :
    dice_loss_forward eps pred gt mask = Except.ok (dice_loss_val eps pred gt mask) ∧
    dice_loss_val eps pred gt mask
      = 1 - 2 * (List.zipWith (· * ·) (List.zipWith (· * ·) pred gt) mask).sum
        / ((List.zipWith (· * ·) pred mask).sum
            + (List.zipWith (· * ·) gt mask).sum + eps) ∧
    dice_loss_val eps pred gt mask ≤ 1 ∧
    dice_loss_forward eps p2 g2 m2
      = Except.error "assertion failed: pred.shape == gt.shape" := by
  have hp0 : ∀ x ∈ pred, 0 ≤ x := fun x hx => (hp x hx).1
  have hg0 : ∀ x ∈ gt, 0 ≤ x := fun x hx => (hg x hx).1
  have hm0 : ∀ x ∈ mask, 0 ≤ x := fun x hx => (hm x hx).1
  have hI : 0 ≤ (List.zipWith (· * ·) (List.zipWith (· * ·) pred gt) mask).sum :=
    List.sum_nonneg (zipWith_mul_nonneg _ _ (zipWith_mul_nonneg _ _ hp0 hg0) hm0)
  have hU : 0 < (List.zipWith (· * ·) pred mask).sum
      + (List.zipWith (· * ·) gt mask).sum + eps := by
    have h1 : 0 ≤ (List.zipWith (· * ·) pred mask).sum :=
      List.sum_nonneg (zipWith_mul_nonneg _ _ hp0 hm0)
    have h2 : 0 ≤ (List.zipWith (· * ·) gt mask).sum :=
      List.sum_nonneg (zipWith_mul_nonneg _ _ hg0 hm0)
    linarith
  have hle : dice_loss_val eps pred gt mask ≤ 1 := by
    unfold dice_loss_val
    have hdiv : 0 ≤ 2 * (List.zipWith (· * ·) (List.zipWith (· * ·) pred gt) mask).sum
        / ((List.zipWith (· * ·) pred mask).sum
            + (List.zipWith (· * ·) gt mask).sum + eps) :=
      div_nonneg (by linarith) (le_of_lt hU)
    simp only
    linarith
  refine ⟨?_, rfl, hle, ?_⟩
  · unfold dice_loss_forward
    rw [if_neg (by simp [hl1]), if_neg (by simp [hl2]), if_pos hle]
  · unfold dice_loss_forward
    rw [if_pos hbad]

theorem dice_loss_bounded_witness :
    dice_loss_forward (1/1000000) [1/2] [1] [1]
      = Except.ok (dice_loss_val (1/1000000) [1/2] [1] [1]) ∧
    dice_loss_val (1/1000000) [1/2] [1] [1]
      = 1 - 2 * (List.zipWith (· * ·) (List.zipWith (· * ·) [1/2] [1]) [1]).sum
        / ((List.zipWith (· * ·) [1/2] [1]).sum
            + (List.zipWith (· * ·) [(1:ℚ)] [1]).sum + 1/1000000) ∧
    dice_loss_val (1/1000000) [1/2] [1] [1] ≤ 1 ∧
    dice_loss_forward (1/1000000) [1] [] []
      = Except.error "assertion failed: pred.shape == gt.shape" :=
  dice_loss_bounded (1/1000000) [1/2] [1] [1] [1] [] [] (by norm_num)
    (by norm_num) (by norm_num) (by norm_num) (by decide) (by decide) (by decide)

/-! ## Helper lemmas for the balanced loss -/

theorem pyInt_natCast (n : ℕ) : pyInt (n : ℚ) = n := by
  unfold pyInt
  rw [if_pos (by exact_mod_cast Nat.cast_nonneg n)]
  exact_mod_cast Int.floor_natCast n

theorem pyInt_of_nonneg (q : ℚ) (h : 0 ≤ q) : pyInt q = ⌊q⌋ := if_pos h

theorem pyInt_min_natCast (n : ℕ) (x : ℚ) (hx : 0 ≤ x) :
    pyInt (min (n : ℚ) x) = min (n : ℤ) (pyInt x) := by
  rcases le_total ((n : ℚ)) x with h | h
  · rw [min_eq_left h, pyInt_natCast]
    have hfl : (n : ℤ) ≤ pyInt x := by
      rw [pyInt_of_nonneg x hx]
      exact Int.le_floor.mpr (by exact_mod_cast h)
    rw [min_eq_left hfl]
  · rw [min_eq_right h, pyInt_of_nonneg x hx]
    have hfl : ⌊x⌋ ≤ (n : ℤ) := by
      have hmono := Int.floor_mono h
      rwa [Int.floor_natCast] at hmono
    rw [min_eq_right hfl]

theorem sort_descending_perm (l : List ℚ) : List.Perm (sort_descending l) l :=
  List.perm_insertionSort _ l

theorem sort_descending_sorted (l : List ℚ) :
    List.Sorted (· ≥ ·) (sort_descending l) := List.sorted_insertionSort _ l

theorem sort_descending_congr (l l' : List ℚ) (h : List.Perm l l') :
    sort_descending l = sort_descending l' :=
  List.eq_of_perm_of_sorted
    ((sort_descending_perm l).trans (h.trans (sort_descending_perm l').symm))
    (sort_descending_sorted l) (sort_descending_sorted l')

theorem sorted_ge_of_all_zero (Z : List ℚ) (hZ : ∀ z ∈ Z, z = 0) :
    List.Sorted (· ≥ ·) Z := by
  induction Z with
  | nil => exact List.sorted_nil
  | cons z t ih =>
    rw [List.sorted_cons]
    refine ⟨?_, ih fun x hx => hZ x (List.mem_cons_of_mem z hx)⟩
    intro b hb
    rw [hZ z (List.mem_cons_self z t), hZ b (List.mem_cons_of_mem z hb)]

theorem sum_of_all_zero (l : List ℚ) (h : ∀ x ∈ l, x = 0) : l.sum = 0 := by
  induction l with
  | nil => rfl
  | cons a t ih =>
    rw [List.sum_cons, h a (List.mem_cons_self a t),
      ih fun x hx => h x (List.mem_cons_of_mem a hx), add_zero]

theorem sort_descending_append_zeros (A Z : List ℚ) (hA : ∀ x ∈ A, 0 ≤ x)
    (hZ : ∀ z ∈ Z, z = 0) :
    sort_descending (A ++ Z) = sort_descending A ++ Z := by
  have hperm : List.Perm (sort_descending (A ++ Z)) (sort_descending A ++ Z) :=
    (sort_descending_perm (A ++ Z)).trans
      ((sort_descending_perm A).symm.append_right Z)
  have hs2 : List.Sorted (· ≥ ·) (sort_descending A ++ Z) := by
    refine List.pairwise_append.mpr
      ⟨sort_descending_sorted A, sorted_ge_of_all_zero Z hZ, ?_⟩
    intro x hx z hz
    have hx' : x ∈ A := (sort_descending_perm A).subset hx
    rw [hZ z hz]
    exact hA x hx'
  exact List.eq_of_perm_of_sorted hperm (sort_descending_sorted _) hs2

theorem take_sum_sort_append_zeros (A Z : List ℚ) (hA : ∀ x ∈ A, 0 ≤ x)
    (hZ : ∀ z ∈ Z, z = 0) (k : ℕ) :
    ((sort_descending (A ++ Z)).take k).sum = ((sort_descending A).take k).sum := by
  rw [sort_descending_append_zeros A Z hA hZ, List.take_append_eq_append_take,
    List.sum_append,
    sum_of_all_zero _ (fun x hx => hZ x (List.mem_of_mem_take hx)), add_zero]

theorem zipWith_mul_zipWith_eq_map_zip (f : ℚ → ℚ → ℚ) (gt mask loss : List ℚ) :
    List.zipWith (· * ·) (List.zipWith f gt mask) loss
      = (gt.zip (mask.zip loss)).map (fun x => f x.1 x.2.1 * x.2.2) := by
  induction gt generalizing mask loss with
  | nil => rfl
  | cons g gs ih =>
    cases mask with
    | nil => rfl
    | cons m ms =>
      cases loss with
      | nil => rfl
      | cons l ls =>
        simp only [List.zipWith_cons_cons, List.zip_cons_cons, List.map_cons]
        rw [ih]

theorem all_zero_of_sum_eq_zero (l : List ℚ) (hnn : ∀ x ∈ l, 0 ≤ x)
    (h : l.sum = 0) : ∀ x ∈ l, x = 0 := by
  induction l with
  | nil => simp
  | cons a t ih =>
    rw [List.sum_cons] at h
    have ha : 0 ≤ a := hnn a (List.mem_cons_self a t)
    have ht : 0 ≤ t.sum :=
      List.sum_nonneg fun x hx => hnn x (List.mem_cons_of_mem a hx)
    have ha0 : a = 0 := le_antisymm (by linarith) ha
    intro x hx
    rcases List.mem_cons.mp hx with hx | hx
    · rw [hx, ha0]
    · exact ih (fun u hu => hnn u (List.mem_cons_of_mem a hu)) (by linarith) x hx

theorem zipWith_mul_left_zero (a b : List ℚ) (ha : ∀ x ∈ a, x = 0) :
    (List.zipWith (· * ·) a b).sum = 0 := by
  induction a generalizing b with
  | nil => rfl
  | cons x xs ih =>
    cases b with
    | nil => rfl
    | cons y ys =>
      rw [List.zipWith_cons_cons, List.sum_cons, ha x (List.mem_cons_self x xs),
        zero_mul, zero_add]
      exact ih ys fun u hu => ha u (List.mem_cons_of_mem x hu)

/-- Specification-side view of hard-negative mining: the per-pixel loss values
at exactly the negative pixels (pixels where (1-gt)*mask is nonzero), in
pixel order. -/
def negative_pixel_losses (gt mask loss : List ℚ) : List ℚ :=
  ((gt.zip (mask.zip loss)).filter
      (fun x => decide ((1 - x.1) * x.2.1 ≠ 0))).map (fun x => x.2.2)

theorem negative_sum_eq_count (gt mask loss : List ℚ)
    (hg : ∀ x ∈ gt, x = 0 ∨ x = 1) (hm : ∀ x ∈ mask, x = 0 ∨ x = 1)
    (hlen1 : gt.length = mask.length) (hlen2 : gt.length = loss.length) :
    (negative_map gt mask).sum
      = ((negative_pixel_losses gt mask loss).length : ℚ) := by
  induction gt generalizing mask loss with
  | nil =>
    cases mask <;> simp [negative_map, negative_pixel_losses]
  | cons g gs ih =>
    cases mask with
    | nil => simp at hlen1
    | cons m ms =>
      cases loss with
      | nil => simp at hlen2
      | cons l ls =>
        have hlen1' : gs.length = ms.length := by simpa using hlen1
        have hlen2' : gs.length = ls.length := by simpa using hlen2
        have hg' : ∀ x ∈ gs, x = 0 ∨ x = 1 :=
          fun x hx => hg x (List.mem_cons_of_mem g hx)
        have hm' : ∀ x ∈ ms, x = 0 ∨ x = 1 :=
          fun x hx => hm x (List.mem_cons_of_mem m hx)
        have ihr := ih ms ls hg' hm' hlen1' hlen2'
        have hv : (1 - g) * m = 0 ∨ (1 - g) * m = 1 := by
          rcases hg g (List.mem_cons_self g gs) with h1 | h1 <;>
            rcases hm m (List.mem_cons_self m ms) with h2 | h2 <;>
            rw [h1, h2] <;> norm_num
        have hhead : negative_map (g :: gs) (m :: ms)
            = ((1 - g) * m) :: negative_map gs ms := rfl
        rcases hv with hv | hv
        · have hfil : negative_pixel_losses (g :: gs) (m :: ms) (l :: ls)
              = negative_pixel_losses gs ms ls := by
            unfold negative_pixel_losses
            rw [List.zip_cons_cons, List.zip_cons_cons, List.filter_cons,
              if_neg (by simp [hv])]
          rw [hhead, List.sum_cons, hv, zero_add, hfil, ihr]
        · have hfil : negative_pixel_losses (g :: gs) (m :: ms) (l :: ls)
              = l :: negative_pixel_losses gs ms ls := by
            unfold negative_pixel_losses
            rw [List.zip_cons_cons, List.zip_cons_cons, List.filter_cons,
              if_pos (by simp [hv])]
            rfl
          rw [hhead, List.sum_cons, hv, hfil, List.length_cons, ihr]
          push_cast
          ring

theorem positive_sum_natCast (gt mask : List ℚ)
    (hg : ∀ x ∈ gt, x = 0 ∨ x = 1) (hm : ∀ x ∈ mask, x = 0 ∨ x = 1) :
    ∃ n : ℕ, (positive_map gt mask).sum = n := by
  induction gt generalizing mask with
  | nil => exact ⟨0, by simp [positive_map]⟩
  | cons g gs ih =>
    cases mask with
    | nil => exact ⟨0, by simp [positive_map]⟩
    | cons m ms =>
      obtain ⟨n, hn⟩ := ih ms (fun x hx => hg x (List.mem_cons_of_mem g hx))
        (fun x hx => hm x (List.mem_cons_of_mem m hx))
      have hhead : positive_map (g :: gs) (m :: ms)
          = (g * m) :: positive_map gs ms := rfl
      have hv : g * m = 0 ∨ g * m = 1 := by
        rcases hg g (List.mem_cons_self g gs) with h1 | h1 <;>
          rcases hm m (List.mem_cons_self m ms) with h2 | h2 <;>
          rw [h1, h2] <;> norm_num
      rcases hv with hv | hv
      · exact ⟨n, by rw [hhead, List.sum_cons, hv, zero_add, hn]⟩
      · exact ⟨n + 1, by rw [hhead, List.sum_cons, hv, hn]; push_cast; ring⟩

theorem negative_pixel_losses_nonneg (gt mask loss : List ℚ)
    (hnn : ∀ x ∈ loss, 0 ≤ x) :
    ∀ y ∈ negative_pixel_losses gt mask loss, 0 ≤ y := by
  intro y hy
  unfold negative_pixel_losses at hy
  rcases List.mem_map.mp hy with ⟨x, hx, hfx⟩
  obtain ⟨g, m, lv⟩ := x
  have hxl : (g, m, lv) ∈ gt.zip (mask.zip loss) := (List.mem_filter.mp hx).1
  have hx2 : (m, lv) ∈ mask.zip loss := (List.of_mem_zip hxl).2
  have hlv : lv ∈ loss := (List.of_mem_zip hx2).2
  rw [← hfx]
  exact hnn _ hlv

theorem negative_loss_decomposition (gt mask loss : List ℚ)
    (hg : ∀ x ∈ gt, x = 0 ∨ x = 1) (hm : ∀ x ∈ mask, x = 0 ∨ x = 1) :
    ∃ Z : List ℚ, (∀ z ∈ Z, z = 0) ∧
      List.Perm (List.zipWith (· * ·) (negative_map gt mask) loss)
        (negative_pixel_losses gt mask loss ++ Z) := by
  refine ⟨((gt.zip (mask.zip loss)).filter
      (fun x => !(decide ((1 - x.1) * x.2.1 ≠ 0)))).map
      (fun x => (1 - x.1) * x.2.1 * x.2.2), ?_, ?_⟩
  · intro z hz
    rcases List.mem_map.mp hz with ⟨x, hx, hfx⟩
    have hzero : (1 - x.1) * x.2.1 = 0 := by
      have hcond := (List.mem_filter.mp hx).2
      simpa using hcond
    rw [← hfx, hzero, zero_mul]
  · have hmap : List.zipWith (· * ·) (negative_map gt mask) loss
        = (gt.zip (mask.zip loss)).map (fun x => (1 - x.1) * x.2.1 * x.2.2) := by
      unfold negative_map
      exact zipWith_mul_zipWith_eq_map_zip (fun g m => (1 - g) * m) gt mask loss
    have hA : ((gt.zip (mask.zip loss)).filter
          (fun x => decide ((1 - x.1) * x.2.1 ≠ 0))).map
          (fun x => (1 - x.1) * x.2.1 * x.2.2)
        = negative_pixel_losses gt mask loss := by
      unfold negative_pixel_losses
      apply List.map_congr_left
      intro x hx
      obtain ⟨g, m, lv⟩ := x
      have hxl : (g, m, lv) ∈ gt.zip (mask.zip loss) := (List.mem_filter.mp hx).1
      have hpx : (1 - g) * m ≠ 0 := by
        have hcond := (List.mem_filter.mp hx).2
        simpa using hcond
      have hgm : g ∈ gt := (List.of_mem_zip hxl).1
      have hx2 : (m, lv) ∈ mask.zip loss := (List.of_mem_zip hxl).2
      have hmm : m ∈ mask := (List.of_mem_zip hx2).1
      have h1 : (1 - g) * m = 1 := by
        rcases hg g hgm with h | h <;> rcases hm m hmm with h' | h' <;>
          rw [h, h'] at hpx ⊢ <;> norm_num at hpx ⊢
      show (1 - g) * m * lv = lv
      rw [h1, one_mul]
    have hperm := (List.filter_append_perm
      (fun x => decide ((1 - x.1) * x.2.1 ≠ 0)) (gt.zip (mask.zip loss))).symm.map
      (fun x => (1 - x.1) * x.2.1 * x.2.2)
    rw [List.map_append, hA] at hperm
    rw [hmap]
    exact hperm

/-- Claim C3 counterexample: with the default DiceLoss main loss, default
negative_ratio 3 and default eps 1e-6, at pred=[1], gt=[0], mask=[1] the
masked positive count sum(gt*mask) is 0, yet BalanceLoss.forward returns
positive_loss.sum()/(positive_count+eps) = 0, not the negative loss sum
divided by eps (which is 1000000 here). -/
theorem balance_loss_p0_counterexample :
    (positive_map [0] [1]).sum = 0 ∧
    balance_loss_forward 3 (1/1000000) (dice_main_loss (1/1000000)) [1] [0] [1]
      ≠ (List.zipWith (· * ·) (negative_map [0] [1])
          (dice_main_loss (1/1000000) [1] [0] [1])).sum / (1/1000000) := by
  constructor
  · norm_num [positive_map]
  · norm_num [balance_loss_forward, positive_map, negative_map, positive_count,
      negative_count, pyInt, dice_main_loss, dice_loss_val, sort_descending]

/-- Claim C3 amended: for inputs whose positive map gt*mask and negative map
(1-gt)*mask are entrywise nonnegative, when the masked positive pixel count
sum(gt*mask) is 0 the balanced loss does not divide by zero: the selected
negative count is 0 and the result is the positive loss sum divided by
(positive_count + eps) = eps, which is 0. -/
theorem balance_loss_p0_amended (neg_ratio eps : ℚ)
    (lossFn : List ℚ → List ℚ → List ℚ → List ℚ) (pred gt mask : List ℚ)
    (heps : 0 < eps)
    (hposnn : ∀ x ∈ positive_map gt mask, 0 ≤ x)
    (hnegnn : ∀ x ∈ negative_map gt mask, 0 ≤ x)
    (h0 : (positive_map gt mask).sum = 0) :
    negative_count neg_ratio gt mask = 0 ∧
    (positive_count gt mask : ℚ) + eps ≠ 0 ∧
    balance_loss_forward neg_ratio eps lossFn pred gt mask
      = (List.zipWith (· * ·) (positive_map gt mask) (lossFn pred gt mask)).sum
        / ((positive_count gt mask : ℚ) + eps) ∧
    balance_loss_forward neg_ratio eps lossFn pred gt mask = 0 := by
  have hpc : positive_count gt mask = 0 := by
    unfold positive_count
    rw [h0]
    unfold pyInt
    norm_num
  have hnsum : 0 ≤ (negative_map gt mask).sum := List.sum_nonneg hnegnn
  have hnc : negative_count neg_ratio gt mask = 0 := by
    unfold negative_count
    rw [hpc]
    push_cast
    rw [zero_mul, min_eq_right hnsum]
    unfold pyInt
    norm_num
  have hploss : (List.zipWith (· * ·) (positive_map gt mask)
      (lossFn pred gt mask)).sum = 0 :=
    zipWith_mul_left_zero _ _ (all_zero_of_sum_eq_zero _ hposnn h0)
  have hne : (positive_count gt mask : ℚ) + eps ≠ 0 := by
    rw [hpc]
    push_cast
    linarith
  have hform : balance_loss_forward neg_ratio eps lossFn pred gt mask
      = (List.zipWith (· * ·) (positive_map gt mask) (lossFn pred gt mask)).sum
        / ((positive_count gt mask : ℚ) + eps) := by
    unfold balance_loss_forward
    rw [if_neg (by rw [hnc]; exact lt_irrefl 0)]
  refine ⟨hnc, hne, hform, ?_⟩
  rw [hform, hploss, zero_div]

theorem balance_loss_p0_amended_witness :
    negative_count 3 [0] [1] = 0 ∧
    (positive_count [0] [1] : ℚ) + 1/1000000 ≠ 0 ∧
    balance_loss_forward 3 (1/1000000) (dice_main_loss (1/1000000)) [1] [0] [1]
      = (List.zipWith (· * ·) (positive_map [0] [1])
          (dice_main_loss (1/1000000) [1] [0] [1])).sum
        / ((positive_count [0] [1] : ℚ) + 1/1000000) ∧
    balance_loss_forward 3 (1/1000000) (dice_main_loss (1/1000000)) [1] [0] [1] = 0 :=
  balance_loss_p0_amended 3 (1/1000000) (dice_main_loss (1/1000000)) [1] [0] [1]
    (by norm_num) (by norm_num [positive_map]) (by norm_num [negative_map])
    (by norm_num [positive_map])

/-- Claim C4: for binary gt and mask maps and a nonnegative per-pixel main
loss, when the selected negative count is positive the balanced loss selects
exactly min(total_negative_pixels, positive_count*negative_ratio) negative
pixels, the selected negative contribution is the sum of the largest selected
negative-pixel losses (sorted descending), and the result is
(positive loss sum + selected negative loss sum) /
(positive_count + negative_count + eps); positive_count is sum(gt*mask). -/
theorem balance_loss_hard_negative_mining (neg_ratio eps : ℚ)
    (lossFn : List ℚ → List ℚ → List ℚ → List ℚ) (pred gt mask : List ℚ)
    (hr : 0 ≤ neg_ratio)
    (hg : ∀ x ∈ gt, x = 0 ∨ x = 1) (hm : ∀ x ∈ mask, x = 0 ∨ x = 1)
    (hlen1 : gt.length = mask.length)
    (hlen2 : gt.length = (lossFn pred gt mask).length)
    (hnn : ∀ x ∈ lossFn pred gt mask, 0 ≤ x)
    (hpos : 0 < negative_count neg_ratio gt mask) :
    (positive_count gt mask : ℚ) = (positive_map gt mask).sum ∧
    negative_count neg_ratio gt mask
      = min ((negative_pixel_losses gt mask (lossFn pred gt mask)).length : ℤ)
          (pyInt ((positive_count gt mask : ℚ) * neg_ratio)) ∧
    balance_loss_forward neg_ratio eps lossFn pred gt mask
      = ((List.zipWith (· * ·) (positive_map gt mask) (lossFn pred gt mask)).sum
          + ((sort_descending
                (negative_pixel_losses gt mask (lossFn pred gt mask))).take
              (negative_count neg_ratio gt mask).toNat).sum)
        / ((positive_count gt mask : ℚ)
            + (negative_count neg_ratio gt mask : ℚ) + eps) := by
  obtain ⟨np, hnp⟩ := positive_sum_natCast gt mask hg hm
  have hpc : positive_count gt mask = (np : ℤ) := by
    unfold positive_count
    rw [hnp, pyInt_natCast]
  have hns := negative_sum_eq_count gt mask (lossFn pred gt mask) hg hm hlen1 hlen2
  refine ⟨?_, ?_, ?_⟩
  · rw [hpc, hnp]
    norm_cast
  · unfold negative_count
    rw [hns, pyInt_min_natCast _ _ (mul_nonneg (by rw [hpc]; positivity) hr)]
  · obtain ⟨Z, hZ, hperm⟩ :=
      negative_loss_decomposition gt mask (lossFn pred gt mask) hg hm
    have hAnn := negative_pixel_losses_nonneg gt mask (lossFn pred gt mask) hnn
    have hsel : sort_descending
        (List.zipWith (· * ·) (negative_map gt mask) (lossFn pred gt mask))
        = sort_descending
            (negative_pixel_losses gt mask (lossFn pred gt mask) ++ Z) :=
      sort_descending_congr _ _ hperm
    simp only [balance_loss_forward]
    rw [if_pos hpos, hsel, take_sum_sort_append_zeros _ _ hAnn hZ]

theorem balance_loss_hard_negative_mining_witness :
    (positive_count [1, 0, 0] [1, 1, 1] : ℚ) = (positive_map [1, 0, 0] [1, 1, 1]).sum ∧
    negative_count 3 [1, 0, 0] [1, 1, 1]
      = min ((negative_pixel_losses [1, 0, 0] [1, 1, 1] [2, 5, 3]).length : ℤ)
          (pyInt ((positive_count [1, 0, 0] [1, 1, 1] : ℚ) * 3)) ∧
    balance_loss_forward 3 (1/1000000) (fun _ _ _ => [2, 5, 3]) [0, 0, 0]
        [1, 0, 0] [1, 1, 1]
      = ((List.zipWith (· * ·) (positive_map [1, 0, 0] [1, 1, 1]) [2, 5, 3]).sum
          + ((sort_descending
                (negative_pixel_losses [1, 0, 0] [1, 1, 1] [2, 5, 3])).take
              (negative_count 3 [1, 0, 0] [1, 1, 1]).toNat).sum)
        / ((positive_count [1, 0, 0] [1, 1, 1] : ℚ)
            + (negative_count 3 [1, 0, 0] [1, 1, 1] : ℚ) + 1/1000000) :=
  balance_loss_hard_negative_mining 3 (1/1000000) (fun _ _ _ => [2, 5, 3])
    [0, 0, 0] [1, 0, 0] [1, 1, 1] (by norm_num) (by decide) (by decide)
    (by decide) (by decide) (by decide)
    (by norm_num [negative_count, negative_map, positive_count, positive_map, pyInt])

/-! ## DBLoss (model.py lines 157-209) -/

/-- The label tensors consumed by DBLoss.forward. -/
structure DBLabels where
  threshold_map : List ℚ
  threshold_mask : List ℚ
  shrink_map : List ℚ
  shrink_mask : List ℚ

/-- The loss dictionary returned by DBLoss.forward. -/
structure DBLossResult where
  loss : ℚ
  loss_shrink_maps : ℚ
  loss_threshold_maps : ℚ
  loss_binary_maps : ℚ

/-- DBLoss.forward on the channel-sliced predicted maps: a balanced shrink
loss (BalanceLoss with the default DiceLoss main loss and the given
ohem_ratio), a MaskL1 threshold loss and a dice binary loss; the shrink and
threshold components are stored already weighted by alpha and beta and the
total is their sum with the unweighted dice term. -/
def db_loss_forward (alpha beta ohem_ratio eps : ℚ)
    (shrink_maps threshold_maps binary_maps : List ℚ)
    (labels : DBLabels) : DBLossResult :=
  let loss_shrink_maps := balance_loss_forward ohem_ratio eps (dice_main_loss eps)
      shrink_maps labels.shrink_map labels.shrink_mask
  let loss_threshold_maps := mask_l1_loss eps threshold_maps
      labels.threshold_map labels.threshold_mask
  let loss_binary_maps := dice_loss_val eps binary_maps
      labels.shrink_map labels.shrink_mask
  { loss := alpha * loss_shrink_maps + beta * loss_threshold_maps + loss_binary_maps
    loss_shrink_maps := alpha * loss_shrink_maps
    loss_threshold_maps := beta * loss_threshold_maps
    loss_binary_maps := loss_binary_maps }

/-- Claim C7: with the default weights alpha=5 and beta=10 (and the default
ohem_ratio 3), the composite detection loss equals
alpha*shrink_loss + beta*threshold_loss + dice_loss, and the returned
dictionary exposes the total together with each of the three weighted
components, the total being exactly their sum. -/
theorem db_loss_composite (eps : ℚ)
    (shrink_maps threshold_maps binary_maps : List ℚ) (labels : DBLabels) :
    (db_loss_forward 5 10 3 eps shrink_maps threshold_maps binary_maps labels).loss
      = 5 * balance_loss_forward 3 eps (dice_main_loss eps) shrink_maps
            labels.shrink_map labels.shrink_mask
        + 10 * mask_l1_loss eps threshold_maps
            labels.threshold_map labels.threshold_mask
        + dice_loss_val eps binary_maps labels.shrink_map labels.shrink_mask ∧
    (db_loss_forward 5 10 3 eps shrink_maps threshold_maps binary_maps
        labels).loss_shrink_maps
      = 5 * balance_loss_forward 3 eps (dice_main_loss eps) shrink_maps
            labels.shrink_map labels.shrink_mask ∧
    (db_loss_forward 5 10 3 eps shrink_maps threshold_maps binary_maps
        labels).loss_threshold_maps
      = 10 * mask_l1_loss eps threshold_maps
            labels.threshold_map labels.threshold_mask ∧
    (db_loss_forward 5 10 3 eps shrink_maps threshold_maps binary_maps
        labels).loss_binary_maps
      = dice_loss_val eps binary_maps labels.shrink_map labels.shrink_mask ∧
    (db_loss_forward 5 10 3 eps shrink_maps threshold_maps binary_maps labels).loss
      = (db_loss_forward 5 10 3 eps shrink_maps threshold_maps binary_maps
          labels).loss_shrink_maps
        + (db_loss_forward 5 10 3 eps shrink_maps threshold_maps binary_maps
            labels).loss_threshold_maps
        + (db_loss_forward 5 10 3 eps shrink_maps threshold_maps binary_maps
            labels).loss_binary_maps :=
  ⟨rfl, rfl, rfl, rfl, rfl⟩

/-! ## Smooth step binarization (Model.step_function, lines 432-435) -/

/-- Model.__init__ line 341: the fixed sharpness constant self.k = 50. -/
def model_k : ℝ := 50

/-- Model.step_function: paddle.reciprocal(1 + paddle.exp(-k * (x - y))). -/
noncomputable def step_function (x y : ℝ) : ℝ :=
  (1 + Real.exp (-model_k * (x - y)))⁻¹

/-- Claim C6: the binary map value equals the logistic
1 / (1 + exp(-50*(shrink - threshold))) with the sharpness constant fixed at
50, and every output value lies strictly between 0 and 1. -/
theorem step_function_logistic (x y : ℝ) :
    step_function x y = 1 / (1 + Real.exp (-(50 : ℝ) * (x - y))) ∧
    0 < step_function x y ∧ step_function x y < 1 := by
  have hexp : 0 < Real.exp (-model_k * (x - y)) := Real.exp_pos _
  have hden : 0 < 1 + Real.exp (-model_k * (x - y)) := by linarith
  refine ⟨?_, ?_, ?_⟩
  · show (1 + Real.exp (-model_k * (x - y)))⁻¹
      = 1 / (1 + Real.exp (-(50 : ℝ) * (x - y)))
    rw [one_div]
    rfl
  · show 0 < (1 + Real.exp (-model_k * (x - y)))⁻¹
    exact inv_pos.mpr hden
  · show (1 + Real.exp (-model_k * (x - y)))⁻¹ < 1
    exact inv_lt_one_of_one_lt₀ (by linarith)

/-! ## Transcript decoding (Model.decode_transcript, lines 949-959) -/

/-- paddle topk(1) index along the last axis: the index of the first maximal
entry of a logit row. -/
def argmax_index (row : List ℚ) : ℕ :=
  (List.range row.length).foldl
    (fun best i => if row.getD best 0 < row.getD i 0 then i else best) 0

/-- The top-1 softmax probability of a logit row: the maximum entry of
softmax(row). -/
noncomputable def softmax_top1 (row : List ℚ) : ℝ :=
  (row.map (fun v => Real.exp (v : ℝ)
      / (row.map (fun u => Real.exp (u : ℝ))).sum)).foldr max 0

/-- Modelled from the spec: LabelConverter.decode is imported from
tasks/text_spotting_db/dataset.py, which is not part of this repository
snapshot.  Per the spec, decoding stops at the first end-of-sequence token and
an all-zero transcript (immediate end token) decodes to the empty string; the
word is embedded as the list of decoded token indices, token 0 being the end
token. -/
def label_converter_decode (idxs : List ℕ) : List ℕ :=
  idxs.takeWhile (fun i => decide (i ≠ 0))

/-- Model.decode_transcript: per-position argmax indices, per-position top-1
softmax probabilities, decode to a word, and the mean probability over the
first len(word) positions (0.0 for an empty word). -/
noncomputable def decode_transcript (pred_recg : List (List ℚ)) : List ℕ × ℝ :=
  let preds_index := pred_recg.map argmax_index
  let probs := pred_recg.map softmax_top1
  let word := label_converter_decode preds_index
  let prob : ℝ :=
    if word.length = 0 then 0
    else (probs.take word.length).sum / ((probs.take word.length).length : ℝ)
  (word, prob)

/-- Claim C8: decode_transcript returns probability 0.0 exactly when the
decoded word is empty (such as for an all-zero transcript), and otherwise the
mean of the per-token top-1 softmax probabilities over exactly the first
len(word) positions; the decoded word is never longer than the logit
sequence, so that slice holds exactly len(word) probabilities. -/
theorem decode_transcript_mean_prob (pred_recg : List (List ℚ)) :
    (decode_transcript pred_recg).1.length ≤ pred_recg.length ∧
    (decode_transcript pred_recg).2
      = (if (decode_transcript pred_recg).1 = [] then 0
         else ((pred_recg.map softmax_top1).take
                  (decode_transcript pred_recg).1.length).sum
              / ((decode_transcript pred_recg).1.length : ℝ)) := by
  have hlen : (label_converter_decode (pred_recg.map argmax_index)).length
      ≤ pred_recg.length := by
    calc (label_converter_decode (pred_recg.map argmax_index)).length
        ≤ (pred_recg.map argmax_index).length :=
          (List.takeWhile_sublist _).length_le
      _ = pred_recg.length := List.length_map _ _
  constructor
  · simpa only [decode_transcript] using hlen
  · simp only [decode_transcript]
    by_cases h : label_converter_decode (pred_recg.map argmax_index) = []
    · rw [if_pos (by rw [h]; rfl), if_pos h]
    · rw [if_neg (fun hc => h (List.length_eq_zero.mp hc)), if_neg h]
      have hk : (label_converter_decode (pred_recg.map argmax_index)).length
          ≤ (pred_recg.map softmax_top1).length := by
        rw [List.length_map]
        exact hlen
      rw [List.length_take, min_eq_left hk]

/-! ## BalanceLoss construction (BalanceLoss.__init__, lines 35-66) -/

/-- The five supported main_loss_type values of BalanceLoss. -/
inductive MainLossKind
  | crossEntropy
  | euclidean
  | diceLoss
  | bceLoss
  | maskL1Loss
deriving DecidableEq

/-- The loss-type enum listed in the BalanceLoss constructor error message. -/
def supported_loss_types : List String :=
  ["CrossEntropy", "DiceLoss", "Euclidean", "BCELoss", "MaskL1Loss"]

/-- BalanceLoss.__init__: dispatch on main_loss_type, raising a descriptive
exception at construction time for an unsupported value. -/
def balance_loss_init (main_loss_type : String) : Except String MainLossKind :=
  if main_loss_type = "CrossEntropy" then Except.ok MainLossKind.crossEntropy
  else if main_loss_type = "Euclidean" then Except.ok MainLossKind.euclidean
  else if main_loss_type = "DiceLoss" then Except.ok MainLossKind.diceLoss
  else if main_loss_type = "BCELoss" then Except.ok MainLossKind.bceLoss
  else if main_loss_type = "MaskL1Loss" then Except.ok MainLossKind.maskL1Loss
  else Except.error
    "main_loss_type in BalanceLoss() can only be one of [CrossEntropy, DiceLoss, Euclidean, BCELoss, MaskL1Loss]"

/-- Whether a constructor outcome is a successful construction. -/
def construction_ok : Except String MainLossKind → Bool
  | Except.ok _ => true
  | Except.error _ => false

/-- Claim C9: constructing BalanceLoss with a main_loss_type outside the
supported enum produces a descriptive error immediately, at construction time;
every value inside the enum constructs successfully. -/
theorem balance_loss_init_enum (s : String) :
    (s ∈ supported_loss_types → construction_ok (balance_loss_init s) = true) ∧
    (s ∉ supported_loss_types →
      balance_loss_init s = Except.error
        "main_loss_type in BalanceLoss() can only be one of [CrossEntropy, DiceLoss, Euclidean, BCELoss, MaskL1Loss]") := by
  constructor
  · intro hs
    simp only [supported_loss_types, List.mem_cons, List.mem_singleton,
      List.not_mem_nil, or_false] at hs
    rcases hs with h | h | h | h | h <;> rw [h] <;> rfl
  · intro hs
    unfold balance_loss_init
    rw [if_neg (fun h => hs (by rw [h]; decide)),
      if_neg (fun h => hs (by rw [h]; decide)),
      if_neg (fun h => hs (by rw [h]; decide)),
      if_neg (fun h => hs (by rw [h]; decide)),
      if_neg (fun h => hs (by rw [h]; decide))]

theorem balance_loss_init_enum_witness :
    construction_ok (balance_loss_init "DiceLoss") = true ∧
    balance_loss_init "InvalidLoss" = Except.error
      "main_loss_type in BalanceLoss() can only be one of [CrossEntropy, DiceLoss, Euclidean, BCELoss, MaskL1Loss]" :=
  ⟨(balance_loss_init_enum "DiceLoss").1 (by decide),
   (balance_loss_init_enum "InvalidLoss").2 (by decide)⟩

/-! ## Ground-truth label assembly (Model.prepare_labels, lines 961-987) -/

/-- The text-or-class payload of a ground-truth evaluation triple. -/
inductive GtText
  | txt (word : List ℕ)
  | cls (c : ℤ)
deriving DecidableEq

/-- One [polygon, text_or_class, ignore] triple emitted by prepare_labels. -/
structure GtTriple where
  poly : List ℤ
  text : GtText
  ignore : Bool
deriving DecidableEq

/-- The raw_results dictionary consumed by Model.prepare_labels: per-image
polygon labels plus either per-image class labels (det4classes path) or
per-image transcript labels (recognition path). -/
structure GtLabels where
  det_label : List (List (List ℤ))
  class_label : Option (List (List ℤ))
  recg_label : List (List (List ℕ))

/-- Model.prepare_labels: per image, per region, emit [poly, str(class), False]
when class labels are present, else [poly, decode(transcript), False]. -/
def prepare_labels (raw : GtLabels) : List (List GtTriple) :=
  (List.range raw.det_label.length).map (fun bs_idx =>
    let dets := raw.det_label.getD bs_idx []
    (List.range dets.length).map (fun idx =>
      match raw.class_label with
      | some cls =>
          { poly := dets.getD idx []
            text := GtText.cls ((cls.getD bs_idx []).getD idx 0)
            ignore := false }
      | none =>
          { poly := dets.getD idx []
            text := GtText.txt (label_converter_decode
                ((raw.recg_label.getD bs_idx []).getD idx []))
            ignore := false }))

/-- Claim C10: every triple emitted by prepare_labels carries the ignore flag
False — also for entries whose decoded transcript is the empty string — so no
ground-truth region is ever marked as ignored for evaluation. -/
theorem prepare_labels_never_ignored (raw : GtLabels) (img : List GtTriple)
    (t : GtTriple) (h1 : img ∈ prepare_labels raw) (h2 : t ∈ img) :
    t.ignore = false := by
  unfold prepare_labels at h1
  rcases List.mem_map.mp h1 with ⟨bs_idx, _, himg⟩
  rw [← himg] at h2
  rcases List.mem_map.mp h2 with ⟨idx, _, ht⟩
  rw [← ht]
  cases raw.class_label <;> rfl

/-- Ground-truth input whose single region has an all-zero transcript, so its
decoded word is empty. -/
def example_gt_labels : GtLabels :=
  { det_label := [[[0, 0, 4, 4]]]
    class_label := none
    recg_label := [[[0]]] }

theorem prepare_labels_never_ignored_witness :
    (GtTriple.mk [0, 0, 4, 4] (GtText.txt []) false).ignore = false :=
  prepare_labels_never_ignored example_gt_labels
    [GtTriple.mk [0, 0, 4, 4] (GtText.txt []) false]
    (GtTriple.mk [0, 0, 4, 4] (GtText.txt []) false)
    (by decide) (by decide)
